import Mathlib

/-!
Verification of the incremental snapshot-merge (reconciliation) logic of the
horizon ETL repository.

The repository's pipelines (src/data/pipelines/polygon_equities_*.py) all share
one shape: load an existing on-disk snapshot (a pandas DataFrame, absent or
unreadable files giving `None`), fetch new records from the vendor per entity,
and merge the two record sets with `pd.concat` followed (in some paths) by
`DataFrame.drop_duplicates(subset=K)`.

Embedding choices:
  * A DataFrame is a `List` of typed records; row order is the concatenation
    order the code produces (`pd.concat([existing, new])` puts existing first).
  * Dates (`pd.to_datetime` values) are day numbers (`Nat`); `timedelta(days=7)`
    is subtraction by 7.  `daysFromCivil` converts a calendar date to its day
    number so concrete calendar scenarios are meaningful.
  * `DataFrame.drop_duplicates(subset=K)` uses pandas' default `keep="first"`:
    for each key tuple the FIRST row in order is kept.  `dropDuplicates` below
    implements exactly that.
  * `None` / absent / unreadable snapshots are `Option.none`; a `try/except`
    around the parquet read is `loadExisting` over an `Except` read result.
  * The fetch loops (per-ticker / per-FIGI `try/except` bodies) are modelled in
    `fetchAll`: each entity's fetch yields the records appended before an
    optional error; an error is caught and the loop continues.
-/

/-- pandas `drop_duplicates(subset=K, keep="first")`, accumulator form: a row is
kept iff its key tuple has not been seen in an earlier row. -/
def dropDupAux {α κ : Type} [DecidableEq κ] (key : α → κ) : List α → List κ → List α
  | [], _ => []
  | x :: xs, seen =>
    if key x ∈ seen then dropDupAux key xs seen
    else x :: dropDupAux key xs (key x :: seen)

/-- pandas `DataFrame.drop_duplicates(subset=K)` with the default
`keep="first"`. -/
def dropDuplicates {α κ : Type} [DecidableEq κ] (key : α → κ) (l : List α) : List α :=
  dropDupAux key l []



/-! ## Calendar dates

`pd.to_datetime` values are modelled as day numbers.  `daysFromCivil y m d`
is the number of days from a fixed origin to the Gregorian calendar date
y-m-d, so that `timedelta` arithmetic on dates is `Nat` arithmetic on day
numbers. -/

def isLeapYear (y : Nat) : Bool :=
  (y % 4 == 0 && y % 100 != 0) || y % 400 == 0

def daysInMonth (y m : Nat) : Nat :=
  if m = 2 then (if isLeapYear y then 29 else 28)
  else if m = 4 ∨ m = 6 ∨ m = 9 ∨ m = 11 then 30
  else 31

def daysBeforeMonth (y m : Nat) : Nat :=
  (List.range (m - 1)).foldr (fun i acc => daysInMonth y (i + 1) + acc) 0

def daysFromCivil (y m d : Nat) : Nat :=
  365 * (y - 1) + (y - 1) / 4 - (y - 1) / 100 + (y - 1) / 400 + daysBeforeMonth y m + d

/-! ## Dividends pipeline (src/data/pipelines/polygon_equities_dividends.py) -/

/-- A row of the dividends DataFrame.  `ticker`, `exDividendDate` and
`cashAmount` form the `drop_duplicates` subset (line 89); `payDate` stands for
the remaining non-key columns of a Polygon dividend record. -/
structure DividendRecord where
  ticker : String
  exDividendDate : Nat
  cashAmount : Int
  payDate : Nat
  deriving DecidableEq

/-- The `drop_duplicates` subset `["ticker", "ex_dividend_date", "cash_amount"]`
of polygon_equities_dividends.py line 89. -/
def dividendKey (r : DividendRecord) : String × Nat × Int :=
  (r.ticker, r.exDividendDate, r.cashAmount)

/-- Reconciliation logic of `update_dividend_history`, parametrised by the
loaded existing snapshot (`none` = absent or unreadable file) and by whatever
list of records the fetch loop produced.
  * existing non-`None` and non-empty (line 29): if the fetch produced records
    (line 69), `pd.concat([existing_dividends, new_records_df])` then
    `drop_duplicates` (lines 85-90); otherwise return existing (line 97).
  * otherwise (line 98): initial import, the fetched records are returned
    as-is (lines 128-133, no `drop_duplicates` on this path). -/
def update_dividend_history (existing : Option (List DividendRecord))
    (fetched : List DividendRecord) : List DividendRecord :=
  match existing with
  | some ex =>
    if ex.isEmpty then fetched
    else if fetched.isEmpty then ex
    else dropDuplicates dividendKey (ex ++ fetched)
  | none => fetched

/-- Watermark computation of `update_dividend_history` lines 29-36: the
maximum `ex_dividend_date` of the existing snapshot minus a 7-day buffer;
`none` means the full-history fetch path (no lower bound, lines 98-118). -/
def dividends_from_date (existing : Option (List DividendRecord)) : Option Nat :=
  match existing with
  | some ex =>
    if ex.isEmpty then none
    else some ((ex.map (·.exDividendDate)).foldr max 0 - 7)
  | none => none

/-- Snapshot loading of `update_dividend_history` lines 20-26: `none` argument
models a missing file (`os.path.exists` false); a read error
(`except Exception`) leaves `existing_dividends = None`. -/
def loadExisting {α : Type} (read : Option (Except String (List α))) :
    Option (List α) :=
  match read with
  | none => none
  | some (Except.ok df) => some df
  | some (Except.error _) => none

/-! ## Splits pipeline (src/data/pipelines/polygon_equities_splits.py) -/

/-- A row of the splits DataFrame.  `ticker`, `executionDate`, `splitFrom` and
`splitTo` form the `drop_duplicates` subset (line 94); `ratio` is the derived
column `split_to / split_from` added on lines 73-75 and 137-139. -/
structure SplitRecord where
  ticker : String
  executionDate : Nat
  splitFrom : Nat
  splitTo : Nat
  ratio : Rat
  deriving DecidableEq

/-- The `drop_duplicates` subset
`["ticker", "execution_date", "split_from", "split_to"]` of
polygon_equities_splits.py line 94. -/
def splitKey (r : SplitRecord) : String × Nat × Nat × Nat :=
  (r.ticker, r.executionDate, r.splitFrom, r.splitTo)

/-- `new_records_df["ratio"] = new_records_df["split_to"] / new_records_df["split_from"]`
(polygon_equities_splits.py lines 73-75). -/
def splitWithRatio (r : SplitRecord) : SplitRecord :=
  { r with ratio := (r.splitTo : Rat) / (r.splitFrom : Rat) }

/-- Reconciliation logic of `update_split_history`: the incremental path adds
the ratio column to the new records, concatenates existing first and
deduplicates (lines 69-100); the initial import adds the ratio column and
returns the fetched records without deduplication (lines 104-143). -/
def update_split_history (existing : Option (List SplitRecord))
    (fetched : List SplitRecord) : List SplitRecord :=
  match existing with
  | some ex =>
    if ex.isEmpty then
      (if fetched.isEmpty then fetched else fetched.map splitWithRatio)
    else if fetched.isEmpty then ex
    else dropDuplicates splitKey (ex ++ fetched.map splitWithRatio)
  | none => if fetched.isEmpty then fetched else fetched.map splitWithRatio

/-- Watermark computation of `update_split_history` lines 31-36: maximum
`execution_date` minus 7 days; `none` = full-history fetch. -/
def splits_from_date (existing : Option (List SplitRecord)) : Option Nat :=
  match existing with
  | some ex =>
    if ex.isEmpty then none
    else some ((ex.map (·.executionDate)).foldr max 0 - 7)
  | none => none

/-! ## IPOs pipeline (src/data/pipelines/polygon_equities_ipos.py) -/

/-- A row of the IPOs DataFrame: `ticker` (the field the merge keys on,
lines 127-134), the `modified_date` watermark, and `issuerName` standing for
the remaining columns of a Polygon IPO record. -/
structure IpoRecord where
  ticker : String
  modifiedDate : Nat
  listingDate : Nat
  issuerName : String
  deriving DecidableEq

/-- Reconciliation logic of `update_ipo_history`:
  * existing non-`None`, non-empty, fetch produced records (line 115):
    existing rows whose `ticker` occurs among the fetched tickers are removed
    (lines 131-134), then `pd.concat([existing_filtered, new_records_df])`
    with NO `drop_duplicates` (line 137);
  * fetch produced nothing: return existing (line 146);
  * existing `None`: initial import returns the fetched records as-is
    (lines 203-215);
  * existing present but empty: the function falls through both branches and
    returns Python `None` (no explicit return), modelled as `none`. -/
def update_ipo_history (existing : Option (List IpoRecord))
    (fetched : List IpoRecord) : Option (List IpoRecord) :=
  match existing with
  | some ex =>
    if ex.isEmpty then none
    else if fetched.isEmpty then some ex
    else some
      ((ex.filter fun r => !((fetched.map (·.ticker)).contains r.ticker)) ++ fetched)
  | none => some fetched

/-- Watermark computation of `update_ipo_history` lines 55-58: maximum
`modified_date` minus 7 days; `none` = full-history fetch. -/
def ipos_from_date (existing : Option (List IpoRecord)) : Option Nat :=
  match existing with
  | some ex =>
    if ex.isEmpty then none
    else some ((ex.map (·.modifiedDate)).foldr max 0 - 7)
  | none => none

/-! ## Ticker events pipeline (src/data/pipelines/polygon_equities_ticker_events.py) -/

/-- A row of the ticker-events DataFrame, the dict built on lines 79-90. -/
structure TickerEvent where
  name : String
  compositeFigi : String
  cik : Option String
  newTicker : String
  type : String
  date : Nat
  deriving DecidableEq

/-- The `drop_duplicates` subset
`["composite_figi", "type", "date", "new_ticker"]` of
polygon_equities_ticker_events.py lines 113-115 and 180-182. -/
def tickerEventKey (r : TickerEvent) : String × String × Nat × String :=
  (r.compositeFigi, r.type, r.date, r.newTicker)

/-- One raw entry of `events.events` in the Polygon ticker-events response:
`row["date"]`, `row["type"]`, `row["ticker_change"]["ticker"]`. -/
structure RawEvent where
  date : Nat
  type : String
  newTicker : String
  deriving DecidableEq

/-- The Polygon ticker-events response object for one FIGI: `events.name`,
`events.composite_figi`, `getattr(events, "cik", None)`, `events.events`. -/
structure EventsResponse where
  name : String
  compositeFigi : String
  cik : Option String
  events : List RawEvent
  deriving DecidableEq

/-- The record dict built for one raw event
(polygon_equities_ticker_events.py lines 79-90). -/
def mkEventRecord (resp : EventsResponse) (row : RawEvent) : TickerEvent :=
  { name := resp.name
    compositeFigi := resp.compositeFigi
    cik := resp.cik
    newTicker := row.newTicker
    type := row.type
    date := row.date }

/-- `set(existing_events["composite_figi"].dropna().unique())`
(polygon_equities_ticker_events.py line 52), as a membership test on the
existing snapshot's FIGI column. -/
def processedFigis (existing : List TickerEvent) : List String :=
  existing.map (·.compositeFigi)

/-- The per-FIGI collection step of the incremental path
(polygon_equities_ticker_events.py lines 67-93): `none` models a falsy or
event-less response (the outer `if events and hasattr(...)` guard); otherwise
each raw event is kept iff `event_date >= pd.to_datetime(from_date)` or
`figi not in processed_figis` (lines 74-78) and mapped to a record dict. -/
def processFigiEvents (fromDate : Nat) (processed : List String) (figi : String)
    (resp : Option EventsResponse) : List TickerEvent :=
  match resp with
  | none => []
  | some r =>
    (r.events.filter fun row => fromDate ≤ row.date || !(processed.contains figi)).map
      (mkEventRecord r)

/-- The initial-import tail of `update_ticker_events` (lines 172-192): if any
events were collected they are deduplicated and saved, otherwise the empty
record set is returned as-is. -/
def update_ticker_events_initial (fetched : List TickerEvent) : List TickerEvent :=
  if fetched.isEmpty then fetched
  else dropDuplicates tickerEventKey fetched

/-- Merge logic of `update_ticker_events`: with a usable existing snapshot and
collected events, `pd.concat([existing_events, new_records_df])` then
`drop_duplicates` (lines 110-115); with no collected events, existing is
returned (line 126); without a usable snapshot the initial import runs. -/
def update_ticker_events (existing : Option (List TickerEvent))
    (fetched : List TickerEvent) : List TickerEvent :=
  match existing with
  | some ex =>
    if ex.isEmpty then update_ticker_events_initial fetched
    else if fetched.isEmpty then ex
    else dropDuplicates tickerEventKey (ex ++ fetched)
  | none => update_ticker_events_initial fetched

/-- Watermark computation of `update_ticker_events` lines 44-47: maximum event
`date` minus 7 days; `none` = full-history fetch. -/
def events_from_date (existing : Option (List TickerEvent)) : Option Nat :=
  match existing with
  | some ex =>
    if ex.isEmpty then none
    else some ((ex.map (·.date)).foldr max 0 - 7)
  | none => none

/-! ## Fundamentals pipeline (src/data/pipelines/polygon_equities_fundamentals.py) -/

/-- A row of the fundamentals DataFrame.  `ticker`, `filingDate`, `fiscalYear`
and `fiscalPeriod` form the `drop_duplicates` subset (line 51). -/
structure FundamentalRecord where
  ticker : String
  filingDate : Nat
  fiscalYear : Nat
  fiscalPeriod : String
  deriving DecidableEq

/-- The `drop_duplicates` subset
`["ticker", "filing_date", "fiscal_year", "fiscal_period"]` of
polygon_equities_fundamentals.py line 51. -/
def fundamentalKey (r : FundamentalRecord) : String × Nat × Nat × String :=
  (r.ticker, r.filingDate, r.fiscalYear, r.fiscalPeriod)

/-- `processed = set(existing_fundamentals["ticker"].dropna().unique())`
(polygon_equities_fundamentals.py lines 27-33): empty when the snapshot is
absent or empty. -/
def processedTickers (existing : Option (List FundamentalRecord)) : List String :=
  match existing with
  | some ex => if ex.isEmpty then [] else ex.map (·.ticker)
  | none => []

/-- The fetch plan of `update_fundamental_history` lines 36-38: every ticker
of the ticker list is fetched unless it is already in `processed`
(`if ticker in processed: continue`).  There is no watermark and no lookback
in this pipeline. -/
def fundamentalsTickersToFetch (existing : Option (List FundamentalRecord))
    (tickerList : List String) : List String :=
  tickerList.filter fun t => !((processedTickers existing).contains t)

/-- Merge logic of `update_fundamental_history` lines 46-58: with fetched
records and a non-`None` existing snapshot, concat existing first then
`drop_duplicates`; with no fetched records, return existing. -/
def update_fundamental_history (existing : Option (List FundamentalRecord))
    (fetched : List FundamentalRecord) : Option (List FundamentalRecord) :=
  if fetched.isEmpty then existing
  else
    match existing with
    | some ex => some (dropDuplicates fundamentalKey (ex ++ fetched))
    | none => some fetched

/-! ## The per-entity fetch loop

Each pipeline iterates its entity list (tickers or FIGIs, flattened over the
rate-limit batches, which only insert sleeps) with a `try/except` around the
per-entity fetch: records appended before an error are kept, the error is
caught (logged/printed) and the loop continues with the next entity
(polygon_equities_dividends.py lines 48-66, polygon_equities_ticker_events.py
lines 63-98). -/

/-- One entity's fetch outcome: the records its iterator yielded before
terminating, and `some e` when it terminated by raising `e` (caught by the
`except` clause). -/
def FetchOutcome (α : Type) : Type := List α × Option String

/-- The collected record list of the fetch loop: every entity contributes the
records it yielded, an error only ends that entity's contribution. -/
def fetchAll {α : Type} (fetch : String → FetchOutcome α) : List String → List α
  | [] => []
  | t :: ts => (fetch t).1 ++ fetchAll fetch ts

/-! ## Sample records for concrete scenarios -/

/-- An existing dividend row with key tuple `("AAPL", 100, 24)`. -/
def divAAPLv1 : DividendRecord := ⟨"AAPL", 100, 24, 1⟩

/-- A fetched dividend row with the same key tuple as `divAAPLv1` but a
different non-key column. -/
def divAAPLv2 : DividendRecord := ⟨"AAPL", 100, 24, 2⟩

/-- A dividend row with an unrelated key tuple. -/
def divMSFT : DividendRecord := ⟨"MSFT", 90, 30, 3⟩

/-- A dividend row whose `ex_dividend_date` is 2024-04-10. -/
def divScenario : DividendRecord :=
  ⟨"AAPL", daysFromCivil 2024 4 10, 24, daysFromCivil 2024 4 25⟩

/-- An existing IPO row. -/
def ipoMSFT : IpoRecord := ⟨"MSFT", 50, 40, "Microsoft"⟩

/-- A fetched IPO row for ticker `"ZZZZ"`. -/
def ipoZv1 : IpoRecord := ⟨"ZZZZ", 60, 55, "Issuer A"⟩

/-- A second fetched IPO row for the same ticker `"ZZZZ"`. -/
def ipoZv2 : IpoRecord := ⟨"ZZZZ", 61, 55, "Issuer B"⟩

/-- An existing fundamentals row for ticker `"AAPL"`. -/
def fundAAPL : FundamentalRecord := ⟨"AAPL", 100, 2024, "Q1"⟩

/-- A split row. -/
def sampleSplit : SplitRecord := ⟨"AAPL", 80, 1, 4, 4⟩

/-- A ticker-event row. -/
def sampleEvent : TickerEvent :=
  ⟨"Apple Inc.", "BBG000B9XRY4", some "0000320193", "AAPL", "ticker_change", 95⟩

/-- A ticker-events response with one old event (day 10) and one recent event
(day 200). -/
def sampleResponse : EventsResponse :=
  ⟨"Apple Inc.", "BBG000B9XRY4", some "0000320193",
    [⟨10, "ticker_change", "AAPL"⟩, ⟨200, "ticker_change", "APLC"⟩]⟩

/-- A fetch collaborator where entity `"GOOD"` yields records and every other
entity raises an error that the loop catches. -/
def sampleFetch : String → FetchOutcome Nat := fun t =>
  if t = "GOOD" then ([1, 2], none) else ([], some "connection error")

/-- A dividends fetch collaborator: entity `"AAPL"` succeeds and yields the
record `divAAPLv2`, whose key tuple equals the existing `divAAPLv1`; every
other entity raises an error that the loop catches. -/
def sampleDivFetch : String → FetchOutcome DividendRecord := fun t =>
  if t = "AAPL" then ([divAAPLv2], none) else ([], some "connection error")

/-! ## Properties of drop_duplicates -/

section DropDupLemmas

variable {α κ : Type} [DecidableEq κ] (key : α → κ)

theorem key_not_mem_seen_of_mem_dropDupAux {l : List α} {seen : List κ} {x : α}
    (h : x ∈ dropDupAux key l seen) : key x ∉ seen := by
  induction l generalizing seen with
  | nil => simp [dropDupAux] at h
  | cons y ys ih =>
    by_cases hy : key y ∈ seen
    · rw [dropDupAux, if_pos hy] at h
      exact ih h
    · rw [dropDupAux, if_neg hy] at h
      rcases List.mem_cons.mp h with rfl | h
      · exact hy
      · intro hx
        exact ih h (List.mem_cons_of_mem _ hx)

theorem mem_dropDupAux_of_first (l₁ l₂ : List α) (seen : List κ) (x : α)
    (hseen : key x ∉ seen) (hfirst : key x ∉ l₁.map key) :
    x ∈ dropDupAux key (l₁ ++ x :: l₂) seen := by
  induction l₁ generalizing seen with
  | nil =>
    rw [List.nil_append, dropDupAux, if_neg hseen]
    exact List.mem_cons_self _ _
  | cons y ys ih =>
    have hxy : key x ≠ key y := by
      intro h
      exact hfirst (by simp [h])
    have hys : key x ∉ ys.map key := by
      intro h
      exact hfirst (by simp [h])
    by_cases hy : key y ∈ seen
    · rw [List.cons_append, dropDupAux, if_pos hy]
      exact ih seen hseen hys
    · rw [List.cons_append, dropDupAux, if_neg hy]
      refine List.mem_cons_of_mem _ (ih (key y :: seen) ?_ hys)
      intro h
      rcases List.mem_cons.mp h with h | h
      · exact hxy h
      · exact hseen h

theorem not_mem_dropDupAux_append (l₁ l₂ : List α) (seen : List κ) (s : α)
    (hs : s ∉ l₁) (hk : key s ∈ l₁.map key ∨ key s ∈ seen) :
    s ∉ dropDupAux key (l₁ ++ l₂) seen := by
  induction l₁ generalizing seen with
  | nil =>
    rcases hk with hk | hk
    · simp at hk
    · intro h
      exact key_not_mem_seen_of_mem_dropDupAux key h hk
  | cons y ys ih =>
    have hs' : s ∉ ys := fun h => hs (List.mem_cons_of_mem _ h)
    by_cases hy : key y ∈ seen
    · rw [List.cons_append, dropDupAux, if_pos hy]
      refine ih seen hs' ?_
      rcases hk with hk | hk
      · rw [List.map_cons] at hk
        rcases List.mem_cons.mp hk with h | h
        · exact Or.inr (h ▸ hy)
        · exact Or.inl h
      · exact Or.inr hk
    · rw [List.cons_append, dropDupAux, if_neg hy]
      intro h
      rcases List.mem_cons.mp h with rfl | h
      · exact hs (List.mem_cons_self _ _)
      · refine ih (key y :: seen) hs' ?_ h
        rcases hk with hk | hk
        · rw [List.map_cons] at hk
          rcases List.mem_cons.mp hk with hke | hke
          · exact Or.inr (List.mem_cons.mpr (Or.inl hke))
          · exact Or.inl hke
        · exact Or.inr (List.mem_cons_of_mem _ hk)

theorem keys_nodup_dropDupAux (l : List α) (seen : List κ) :
    ((dropDupAux key l seen).map key).Nodup ∧
      ∀ k ∈ (dropDupAux key l seen).map key, k ∉ seen := by
  induction l generalizing seen with
  | nil => simp [dropDupAux]
  | cons y ys ih =>
    by_cases hy : key y ∈ seen
    · rw [dropDupAux, if_pos hy]
      exact ih seen
    · rw [dropDupAux, if_neg hy]
      obtain ⟨hnd, hdis⟩ := ih (key y :: seen)
      constructor
      · rw [List.map_cons, List.nodup_cons]
        refine ⟨fun h => ?_, hnd⟩
        exact hdis _ h (List.mem_cons_self _ _)
      · intro k hk hkseen
        rw [List.map_cons] at hk
        rcases List.mem_cons.mp hk with h | h
        · exact hy (h ▸ hkseen)
        · exact hdis _ h (List.mem_cons_of_mem _ hkseen)

theorem keys_nodup_dropDuplicates (l : List α) :
    ((dropDuplicates key l).map key).Nodup :=
  (keys_nodup_dropDupAux key l []).1

theorem mem_dropDuplicates_of_mem_nodup {l₁ : List α} (l₂ : List α) {r : α}
    (hnd : (l₁.map key).Nodup) (hr : r ∈ l₁) :
    r ∈ dropDuplicates key (l₁ ++ l₂) := by
  obtain ⟨s, t, rfl⟩ := List.append_of_mem hr
  have hfirst : key r ∉ s.map key := by
    intro h
    rw [List.map_append, List.map_cons] at hnd
    exact (List.disjoint_of_nodup_append hnd) h (List.mem_cons_self _ _)
  rw [List.append_assoc, List.cons_append]
  exact mem_dropDupAux_of_first key s (t ++ l₂) [] r (by simp) hfirst

end DropDupLemmas

/-! ## Watermark (foldr max) helpers -/

theorem foldr_max_mem (l : List Nat) (h : l ≠ []) : l.foldr max 0 ∈ l := by
  induction l with
  | nil => exact absurd rfl h
  | cons x xs ih =>
    cases xs with
    | nil => simp
    | cons y ys =>
      rw [List.foldr_cons]
      rcases le_total ((y :: ys).foldr max 0) x with hle | hle
      · rw [max_eq_left hle]
        exact List.mem_cons_self _ _
      · rw [max_eq_right hle]
        exact List.mem_cons_of_mem _ (ih (by simp))

theorem le_foldr_max (l : List Nat) : ∀ x ∈ l, x ≤ l.foldr max 0 := by
  induction l with
  | nil => intro x hx; cases hx
  | cons y ys ih =>
    intro x hx
    rcases List.mem_cons.mp hx with rfl | hx
    · exact le_max_left _ _
    · exact le_trans (ih x hx) (le_max_right _ _)

theorem watermark_max_spec {β : Type} (wm : β → Nat) (l : List β) (h : l ≠ []) :
    (l.map wm).foldr max 0 ∈ l.map wm ∧ ∀ x ∈ l.map wm, x ≤ (l.map wm).foldr max 0 := by
  have hm : l.map wm ≠ [] := by
    cases l with
    | nil => exact absurd rfl h
    | cons a t => simp
  exact ⟨foldr_max_mem _ hm, le_foldr_max _⟩

/-! ## Branch-unfolding helpers for the pipeline functions -/

theorem update_dividend_history_empty_fetch (ex : List DividendRecord) (h : ex ≠ []) :
    update_dividend_history (some ex) [] = ex := by
  cases ex with
  | nil => exact absurd rfl h
  | cons a l => rfl

theorem update_dividend_history_merge (ex f : List DividendRecord)
    (hex : ex ≠ []) (hf : f ≠ []) :
    update_dividend_history (some ex) f = dropDuplicates dividendKey (ex ++ f) := by
  cases ex with
  | nil => exact absurd rfl hex
  | cons a l =>
    cases f with
    | nil => exact absurd rfl hf
    | cons b m => rfl

theorem dividends_from_date_eq (ex : List DividendRecord) (h : ex ≠ []) :
    dividends_from_date (some ex)
      = some ((ex.map (·.exDividendDate)).foldr max 0 - 7) := by
  cases ex with
  | nil => exact absurd rfl h
  | cons a l => rfl

theorem splits_from_date_eq (ex : List SplitRecord) (h : ex ≠ []) :
    splits_from_date (some ex)
      = some ((ex.map (·.executionDate)).foldr max 0 - 7) := by
  cases ex with
  | nil => exact absurd rfl h
  | cons a l => rfl

theorem ipos_from_date_eq (ex : List IpoRecord) (h : ex ≠ []) :
    ipos_from_date (some ex)
      = some ((ex.map (·.modifiedDate)).foldr max 0 - 7) := by
  cases ex with
  | nil => exact absurd rfl h
  | cons a l => rfl

theorem events_from_date_eq (ex : List TickerEvent) (h : ex ≠ []) :
    events_from_date (some ex)
      = some ((ex.map (·.date)).foldr max 0 - 7) := by
  cases ex with
  | nil => exact absurd rfl h
  | cons a l => rfl

theorem mem_processedTickers (exF : List FundamentalRecord) (t : String) :
    t ∈ processedTickers (some exF) ↔ t ∈ exF.map (·.ticker) := by
  cases exF with
  | nil => simp [processedTickers]
  | cons a l => simp [processedTickers]

theorem exists_key_mem_dropDupAux {α κ : Type} [DecidableEq κ] (key : α → κ) :
    ∀ (l : List α) (seen : List κ) (x : α), x ∈ l → key x ∉ seen →
      ∃ y ∈ dropDupAux key l seen, key y = key x := by
  intro l
  induction l with
  | nil => intro seen x hx; cases hx
  | cons z zs ih =>
    intro seen x hx hseen
    by_cases hz : key z ∈ seen
    · rw [dropDupAux, if_pos hz]
      rcases List.mem_cons.mp hx with rfl | hx'
      · exact absurd hz hseen
      · exact ih seen x hx' hseen
    · rw [dropDupAux, if_neg hz]
      rcases List.mem_cons.mp hx with rfl | hx'
      · exact ⟨x, List.mem_cons_self _ _, rfl⟩
      · by_cases hkz : key x = key z
        · exact ⟨z, List.mem_cons_self _ _, hkz.symm⟩
        · obtain ⟨y, hy, hky⟩ := ih (key z :: seen) x hx' (by
            intro h
            rcases List.mem_cons.mp h with h | h
            · exact hkz h
            · exact hseen h)
          exact ⟨y, List.mem_cons_of_mem _ hy, hky⟩

theorem update_split_history_empty_fetch (ex : List SplitRecord) (h : ex ≠ []) :
    update_split_history (some ex) [] = ex := by
  cases ex with
  | nil => exact absurd rfl h
  | cons a l => rfl

theorem update_split_history_merge (ex f : List SplitRecord)
    (hex : ex ≠ []) (hf : f ≠ []) :
    update_split_history (some ex) f
      = dropDuplicates splitKey (ex ++ f.map splitWithRatio) := by
  cases ex with
  | nil => exact absurd rfl hex
  | cons a l =>
    cases f with
    | nil => exact absurd rfl hf
    | cons b m => rfl

theorem update_ticker_events_empty_fetch (ex : List TickerEvent) (h : ex ≠ []) :
    update_ticker_events (some ex) [] = ex := by
  cases ex with
  | nil => exact absurd rfl h
  | cons a l => rfl

theorem update_ticker_events_merge (ex f : List TickerEvent)
    (hex : ex ≠ []) (hf : f ≠ []) :
    update_ticker_events (some ex) f = dropDuplicates tickerEventKey (ex ++ f) := by
  cases ex with
  | nil => exact absurd rfl hex
  | cons a l =>
    cases f with
    | nil => exact absurd rfl hf
    | cons b m => rfl

theorem update_fundamental_history_merge (ex f : List FundamentalRecord)
    (hf : f ≠ []) :
    update_fundamental_history (some ex) f
      = some (dropDuplicates fundamentalKey (ex ++ f)) := by
  cases f with
  | nil => exact absurd rfl hf
  | cons b m => rfl

/-! ## Claims -/

/-- Claim C1, counterexample.  The fetched record `divAAPLv2` shares the
existing record's key tuple `("AAPL", 100, 24)` but differs in a non-key
column; `update_dividend_history` keeps the EXISTING version and drops the
fetched one, because `drop_duplicates` defaults to `keep="first"` and the
existing records are concatenated first.  This refutes the claim that the
fetched version wins the tie. -/
theorem C1_counterexample :
    dividendKey divAAPLv1 = dividendKey divAAPLv2 ∧ divAAPLv1 ≠ divAAPLv2 ∧
      update_dividend_history (some [divAAPLv1]) [divAAPLv2] = [divAAPLv1] ∧
      divAAPLv2 ∉ update_dividend_history (some [divAAPLv1]) [divAAPLv2] := by
  decide

/-- Claim C1 (amended): when a record in the fetched batch has the same
natural-key tuple as a record in the existing snapshot (whose keys are
pairwise distinct, the snapshot invariant), the reconciled result contains the
EXISTING record's version, and not the fetched version: deduplication keeps
the first-seen occurrence, and existing records come first. -/
theorem C1_existing_record_wins (ex f : List DividendRecord) (r s : DividendRecord)
    (hnd : (ex.map dividendKey).Nodup) (hr : r ∈ ex) (hs : s ∈ f)
    (hk : dividendKey s = dividendKey r) (hsx : s ∉ ex) :
    r ∈ update_dividend_history (some ex) f ∧
      s ∉ update_dividend_history (some ex) f := by
  have hex : ex ≠ [] := List.ne_nil_of_mem hr
  have hf : f ≠ [] := List.ne_nil_of_mem hs
  rw [update_dividend_history_merge ex f hex hf]
  constructor
  · exact mem_dropDuplicates_of_mem_nodup dividendKey f hnd hr
  · have hkmem : dividendKey s ∈ ex.map dividendKey := by
      rw [hk]
      exact List.mem_map_of_mem _ hr
    exact not_mem_dropDupAux_append dividendKey ex f [] s hsx (Or.inl hkmem)

/-- Claim C1 witness. -/
theorem C1_witness :
    divAAPLv1 ∈ update_dividend_history (some [divAAPLv1, divMSFT]) [divAAPLv2] ∧
      divAAPLv2 ∉ update_dividend_history (some [divAAPLv1, divMSFT]) [divAAPLv2] :=
  C1_existing_record_wins _ _ _ _ (by decide) (by decide) (by decide) (by decide)
    (by decide)

/-- Claim C2, counterexample.  In the IPO merge path
(polygon_equities_ipos.py lines 126-137) the concatenation is NOT followed by
`drop_duplicates`: two fetched records for the same ticker `"ZZZZ"` both
survive, so the persisted record set contains two records with equal key
tuples. -/
theorem C2_counterexample :
    update_ipo_history (some [ipoMSFT]) [ipoZv1, ipoZv2]
        = some [ipoMSFT, ipoZv1, ipoZv2] ∧
      ipoZv1.ticker = ipoZv2.ticker ∧ ipoZv1 ≠ ipoZv2 := by
  decide

/-- Claim C2 (amended): in the merge paths of the dividends, splits,
ticker-events and fundamentals pipelines (existing snapshot satisfying the
snapshot invariant that its keys are pairwise distinct), the produced record
set has pairwise-distinct natural-key tuples; the IPO merge path and the
initial-import paths do not deduplicate, so duplicate key tuples in the
fetched batch survive there. -/
theorem C2_merge_path_keys_nodup
    (ex1 f1 : List DividendRecord) (ex2 f2 : List SplitRecord)
    (ex4 f4 : List TickerEvent) (exF fF : List FundamentalRecord)
    (h1 : ex1 ≠ []) (hn1 : (ex1.map dividendKey).Nodup)
    (h2 : ex2 ≠ []) (hn2 : (ex2.map splitKey).Nodup)
    (h4 : ex4 ≠ []) (hn4 : (ex4.map tickerEventKey).Nodup)
    (hnF : (exF.map fundamentalKey).Nodup) :
    ((update_dividend_history (some ex1) f1).map dividendKey).Nodup ∧
      ((update_split_history (some ex2) f2).map splitKey).Nodup ∧
      ((update_ticker_events (some ex4) f4).map tickerEventKey).Nodup ∧
      ∀ res, update_fundamental_history (some exF) fF = some res →
        (res.map fundamentalKey).Nodup := by
  refine ⟨?_, ?_, ?_, ?_⟩
  · cases f1 with
    | nil =>
      rw [update_dividend_history_empty_fetch ex1 h1]
      exact hn1
    | cons b m =>
      rw [update_dividend_history_merge ex1 (b :: m) h1 (by simp)]
      exact keys_nodup_dropDuplicates dividendKey (ex1 ++ b :: m)
  · cases f2 with
    | nil =>
      rw [update_split_history_empty_fetch ex2 h2]
      exact hn2
    | cons b m =>
      rw [update_split_history_merge ex2 (b :: m) h2 (by simp)]
      exact keys_nodup_dropDuplicates splitKey _
  · cases f4 with
    | nil =>
      rw [update_ticker_events_empty_fetch ex4 h4]
      exact hn4
    | cons b m =>
      rw [update_ticker_events_merge ex4 (b :: m) h4 (by simp)]
      exact keys_nodup_dropDuplicates tickerEventKey _
  · intro res hres
    cases fF with
    | nil =>
      have h0 : update_fundamental_history (some exF) [] = some exF := rfl
      rw [h0] at hres
      rw [← Option.some.inj hres]
      exact hnF
    | cons b m =>
      rw [update_fundamental_history_merge exF (b :: m) (by simp)] at hres
      rw [← Option.some.inj hres]
      exact keys_nodup_dropDuplicates fundamentalKey _

/-- Claim C2 witness. -/
theorem C2_witness :
    ((update_dividend_history (some [divAAPLv1, divMSFT]) [divAAPLv2]).map
        dividendKey).Nodup :=
  (C2_merge_path_keys_nodup [divAAPLv1, divMSFT] [divAAPLv2] [sampleSplit] []
    [sampleEvent] [] [fundAAPL] [] (by decide) (by decide) (by decide) (by decide)
    (by decide) (by decide) (by decide)).1

/-- Claim C3, counterexample.  With no existing snapshot, the dividends
initial-import path returns the 3 fetched records as-is even though two of
them share a key tuple: the result has 3 records, not the 2 the claim
predicts. -/
theorem C3_counterexample :
    dividendKey divAAPLv1 = dividendKey divAAPLv2 ∧ divAAPLv1 ≠ divAAPLv2 ∧
      (update_dividend_history none [divAAPLv1, divAAPLv2, divMSFT]).length = 3 := by
  decide

/-- Claim C3 (amended): when the existing snapshot is absent or empty, the
dividends pipeline returns the fetched batch unchanged (no deduplication) and
the splits pipeline returns it with only the derived ratio column added; only
the ticker-events initial import deduplicates the fetched batch. -/
theorem C3_initial_import_returns_fetched :
    (∀ f : List DividendRecord, update_dividend_history none f = f) ∧
      (∀ f : List SplitRecord, update_split_history none f = f.map splitWithRatio) ∧
      (∀ f : List TickerEvent,
        update_ticker_events_initial f = dropDuplicates tickerEventKey f) := by
  refine ⟨fun f => rfl, fun f => ?_, fun f => ?_⟩
  · cases f with
    | nil => rfl
    | cons a l => rfl
  · cases f with
    | nil => rfl
    | cons a l => rfl

/-- Claim C4 (confirmed): reconciling a non-empty existing snapshot with an
empty fetched batch returns the existing snapshot unchanged
(polygon_equities_dividends.py lines 96-97). -/
theorem C4_empty_fetch_identity (ex : List DividendRecord) (hex : ex ≠ []) :
    update_dividend_history (some ex) [] = ex :=
  update_dividend_history_empty_fetch ex hex

/-- Claim C4 witness. -/
theorem C4_witness :
    update_dividend_history (some [divAAPLv1, divMSFT]) [] = [divAAPLv1, divMSFT] :=
  C4_empty_fetch_identity _ (by decide)

/-- Claim C5 (confirmed): every existing record whose natural-key tuple does
not occur in the fetched batch survives reconciliation, in the dividends
merge (first occurrences are kept, and existing records come first) and in
the IPO merge (only existing rows whose ticker occurs among the fetched
tickers are filtered out). -/
theorem C5_unrelated_existing_survive
    (ex f : List DividendRecord) (r : DividendRecord)
    (hnd : (ex.map dividendKey).Nodup) (hr : r ∈ ex)
    (hks : dividendKey r ∉ f.map dividendKey)
    (exI fI : List IpoRecord) (ri : IpoRecord) (hri : ri ∈ exI)
    (hkI : ri.ticker ∉ fI.map (·.ticker)) :
    r ∈ update_dividend_history (some ex) f ∧
      ∃ res, update_ipo_history (some exI) fI = some res ∧ ri ∈ res := by
  constructor
  · cases f with
    | nil =>
      rw [update_dividend_history_empty_fetch ex (List.ne_nil_of_mem hr)]
      exact hr
    | cons b m =>
      rw [update_dividend_history_merge ex (b :: m) (List.ne_nil_of_mem hr) (by simp)]
      exact mem_dropDuplicates_of_mem_nodup dividendKey (b :: m) hnd hr
  · cases fI with
    | nil =>
      refine ⟨exI, ?_, hri⟩
      cases exI with
      | nil => cases hri
      | cons a l => rfl
    | cons b m =>
      refine ⟨(exI.filter fun x => !(((b :: m).map (·.ticker)).contains x.ticker))
          ++ (b :: m), ?_, ?_⟩
      · cases exI with
        | nil => cases hri
        | cons a l => rfl
      · refine List.mem_append_left _ (List.mem_filter.mpr ⟨hri, ?_⟩)
        simpa using hkI

/-- Claim C5 witness. -/
theorem C5_witness :
    divMSFT ∈ update_dividend_history (some [divMSFT, divAAPLv1]) [divAAPLv2] ∧
      ∃ res, update_ipo_history (some [ipoMSFT]) [ipoZv1] = some res ∧ ipoMSFT ∈ res :=
  C5_unrelated_existing_survive _ _ _ (by decide) (by decide) (by decide) _ _ _
    (by decide) (by decide)

/-- Claim C6 (confirmed): with a non-empty existing snapshot the dividends
fetch-from boundary is the maximum `ex_dividend_date` minus 7 days; with an
absent or empty snapshot the pipeline signals a full-history fetch (`none`);
and a maximum ex-dividend date of 2024-04-10 yields fetch-from 2024-04-03. -/
theorem C6_compute_fetch_from (ex : List DividendRecord) :
    (ex ≠ [] →
      ∃ M, M ∈ ex.map (·.exDividendDate) ∧
        (∀ x ∈ ex.map (·.exDividendDate), x ≤ M) ∧
        dividends_from_date (some ex) = some (M - 7)) ∧
      dividends_from_date none = none ∧
      dividends_from_date (some ([] : List DividendRecord)) = none ∧
      dividends_from_date (some [divScenario]) = some (daysFromCivil 2024 4 3) := by
  refine ⟨fun hex => ?_, rfl, rfl, ?_⟩
  · obtain ⟨hmem, hle⟩ := watermark_max_spec (·.exDividendDate) ex hex
    exact ⟨_, hmem, hle, dividends_from_date_eq ex hex⟩
  · decide

/-- Claim C6 witness. -/
theorem C6_witness :
    ∃ M, M ∈ [divAAPLv1, divMSFT].map (·.exDividendDate) ∧
      (∀ x ∈ [divAAPLv1, divMSFT].map (·.exDividendDate), x ≤ M) ∧
      dividends_from_date (some [divAAPLv1, divMSFT]) = some (M - 7) :=
  (C6_compute_fetch_from _).1 (by decide)

/-- Claim C7, counterexample.  The fundamentals pipeline has NO lookback at
all: its fetch plan skips every ticker already present in the existing
snapshot (`if ticker in processed: continue`,
polygon_equities_fundamentals.py lines 36-38), so an already-seen entity is
never re-fetched, contradicting the claim that all five domains re-fetch
already-seen entities from a 7-day lookback boundary. -/
theorem C7_counterexample :
    processedTickers (some [fundAAPL]) = ["AAPL"] ∧
      fundamentalsTickersToFetch (some [fundAAPL]) ["AAPL", "ZZZZ"] = ["ZZZZ"] ∧
      fundamentalsTickersToFetch (some [fundAAPL]) ["AAPL"] = [] := by
  decide

/-- Claim C7 (amended): four domains (dividends, splits, IPOs, ticker events)
compute the incremental fetch boundary as the snapshot's maximum watermark
value minus 7 days; the fundamentals domain instead fetches exactly the
tickers absent from the existing snapshot and never re-fetches an
already-seen ticker. -/
theorem C7_lookback_domains
    (ex1 : List DividendRecord) (ex2 : List SplitRecord) (ex3 : List IpoRecord)
    (ex4 : List TickerEvent) (exF : List FundamentalRecord) (tl : List String)
    (h1 : ex1 ≠ []) (h2 : ex2 ≠ []) (h3 : ex3 ≠ []) (h4 : ex4 ≠ []) :
    (∃ M, M ∈ ex1.map (·.exDividendDate) ∧
        (∀ x ∈ ex1.map (·.exDividendDate), x ≤ M) ∧
        dividends_from_date (some ex1) = some (M - 7)) ∧
      (∃ M, M ∈ ex2.map (·.executionDate) ∧
        (∀ x ∈ ex2.map (·.executionDate), x ≤ M) ∧
        splits_from_date (some ex2) = some (M - 7)) ∧
      (∃ M, M ∈ ex3.map (·.modifiedDate) ∧
        (∀ x ∈ ex3.map (·.modifiedDate), x ≤ M) ∧
        ipos_from_date (some ex3) = some (M - 7)) ∧
      (∃ M, M ∈ ex4.map (·.date) ∧
        (∀ x ∈ ex4.map (·.date), x ≤ M) ∧
        events_from_date (some ex4) = some (M - 7)) ∧
      (∀ t, t ∈ fundamentalsTickersToFetch (some exF) tl ↔
        t ∈ tl ∧ t ∉ exF.map (·.ticker)) := by
  refine ⟨?_, ?_, ?_, ?_, ?_⟩
  · obtain ⟨hm, hl⟩ := watermark_max_spec (·.exDividendDate) ex1 h1
    exact ⟨_, hm, hl, dividends_from_date_eq ex1 h1⟩
  · obtain ⟨hm, hl⟩ := watermark_max_spec (·.executionDate) ex2 h2
    exact ⟨_, hm, hl, splits_from_date_eq ex2 h2⟩
  · obtain ⟨hm, hl⟩ := watermark_max_spec (·.modifiedDate) ex3 h3
    exact ⟨_, hm, hl, ipos_from_date_eq ex3 h3⟩
  · obtain ⟨hm, hl⟩ := watermark_max_spec (·.date) ex4 h4
    exact ⟨_, hm, hl, events_from_date_eq ex4 h4⟩
  · intro t
    rw [fundamentalsTickersToFetch, List.mem_filter]
    constructor
    · rintro ⟨htl, hcond⟩
      refine ⟨htl, fun hmem => ?_⟩
      have : t ∈ processedTickers (some exF) := (mem_processedTickers exF t).mpr hmem
      simp [this] at hcond
    · rintro ⟨htl, hmem⟩
      refine ⟨htl, ?_⟩
      have : t ∉ processedTickers (some exF) :=
        fun h => hmem ((mem_processedTickers exF t).mp h)
      simpa using this

/-- Claim C7 witness. -/
theorem C7_witness :
    ∃ M, M ∈ [divAAPLv1].map (·.exDividendDate) ∧
      (∀ x ∈ [divAAPLv1].map (·.exDividendDate), x ≤ M) ∧
      dividends_from_date (some [divAAPLv1]) = some (M - 7) :=
  (C7_lookback_domains [divAAPLv1] [sampleSplit] [ipoMSFT] [sampleEvent] [fundAAPL]
      ["AAPL"] (by decide) (by decide) (by decide) (by decide)).1

/-- Claim C8 (confirmed): a read error on the existing snapshot file leaves
the loaded snapshot `None` (treated as absent), and the run proceeds on the
full re-fetch path, producing a snapshot built from the fetched records
only — exactly as if the file had not existed. -/
theorem C8_corrupted_snapshot_degrades (e : String) (f : List DividendRecord) :
    loadExisting (some (Except.error e)) = (none : Option (List DividendRecord)) ∧
      update_dividend_history (loadExisting (some (Except.error e))) f = f ∧
      update_dividend_history (loadExisting (some (Except.error e))) f
        = update_dividend_history (loadExisting none) f :=
  ⟨rfl, rfl, rfl⟩

/-- Claim C9, counterexample.  Entity `"AAPL"`'s fetch succeeds and its record
`divAAPLv2` is collected, but the final merged result does not contain that
record: `drop_duplicates(keep="first")` discards it in favour of the existing
record `divAAPLv1` sharing its key tuple.  This refutes the claim that the
final merged result contains the records of every entity whose fetch
succeeded. -/
theorem C9_counterexample :
    (sampleDivFetch "AAPL").2 = none ∧
      divAAPLv2 ∈ fetchAll sampleDivFetch ["AAPL"] ∧
      divAAPLv2 ∉
        update_dividend_history (some [divAAPLv1]) (fetchAll sampleDivFetch ["AAPL"]) := by
  decide

/-- Claim C9 (amended): a fetch failure for one entity is skipped and the run
continues with the remaining entities: the collected batch handed to the
merge contains every record of every entity whose fetch succeeded and nothing
from outside the entity list, and for each successfully fetched record the
final merged result contains a record with that record's natural-key tuple —
though not necessarily the fetched record itself, which may be superseded by
the first-seen existing record sharing its key. -/
theorem C9_entity_failure_skipped (fetch : String → FetchOutcome DividendRecord)
    (ts : List String) (ex : List DividendRecord) (hex : ex ≠ []) :
    (∀ t ∈ ts, (fetch t).2 = none → ∀ r ∈ (fetch t).1, r ∈ fetchAll fetch ts) ∧
      (∀ r ∈ fetchAll fetch ts, ∃ t ∈ ts, r ∈ (fetch t).1) ∧
      (∀ t ∈ ts, (fetch t).2 = none → ∀ r ∈ (fetch t).1,
        ∃ m ∈ update_dividend_history (some ex) (fetchAll fetch ts),
          dividendKey m = dividendKey r) := by
  have hcol : ∀ t ∈ ts, ∀ r ∈ (fetch t).1, r ∈ fetchAll fetch ts := by
    induction ts with
    | nil => intro t ht; cases ht
    | cons x xs ih =>
      intro t ht r hr
      simp only [fetchAll]
      rcases List.mem_cons.mp ht with rfl | ht'
      · exact List.mem_append_left _ hr
      · exact List.mem_append_right _ (ih t ht' r hr)
  refine ⟨fun t ht _ r hr => hcol t ht r hr, ?_, ?_⟩
  · clear hcol
    induction ts with
    | nil =>
      intro r hr
      simp only [fetchAll] at hr
      cases hr
    | cons x xs ih =>
      intro r hr
      simp only [fetchAll] at hr
      rcases List.mem_append.mp hr with h | h
      · exact ⟨x, List.mem_cons_self _ _, h⟩
      · obtain ⟨t, ht, hrt⟩ := ih r h
        exact ⟨t, List.mem_cons_of_mem _ ht, hrt⟩
  · intro t ht _ r hr
    have hmem : r ∈ fetchAll fetch ts := hcol t ht r hr
    rw [update_dividend_history_merge ex _ hex (List.ne_nil_of_mem hmem)]
    exact exists_key_mem_dropDupAux dividendKey (ex ++ fetchAll fetch ts) [] r
      (List.mem_append_right _ hmem) (List.not_mem_nil _)

/-- Claim C9 witness: entity `"BAD"` fails, entity `"AAPL"` succeeds; the
successful entity's record is collected and its key tuple reaches the final
merged result. -/
theorem C9_witness :
    divAAPLv2 ∈ fetchAll sampleDivFetch ["BAD", "AAPL"] ∧
      ∃ m ∈ update_dividend_history (some [divAAPLv1])
          (fetchAll sampleDivFetch ["BAD", "AAPL"]),
        dividendKey m = dividendKey divAAPLv2 := by
  have h := C9_entity_failure_skipped sampleDivFetch ["BAD", "AAPL"] [divAAPLv1]
    (by decide)
  exact ⟨h.1 "AAPL" (by decide) (by decide) divAAPLv2 (by decide),
    h.2.2 "AAPL" (by decide) (by decide) divAAPLv2 (by decide)⟩

/-- Claim C10 (confirmed): in the incremental ticker-events path a fetched
event is retained iff its date is on or after the lookback-adjusted from-date
OR its FIGI does not appear in the existing snapshot; consequently for a FIGI
absent from the snapshot every fetched event is kept. -/
theorem C10_event_retention (fromDate : Nat) (processed : List String)
    (figi : String) (resp : EventsResponse) :
    (∀ ev, ev ∈ processFigiEvents fromDate processed figi (some resp) ↔
        ∃ row, row ∈ resp.events ∧ (fromDate ≤ row.date ∨ figi ∉ processed) ∧
          ev = mkEventRecord resp row) ∧
      (figi ∉ processed →
        processFigiEvents fromDate processed figi (some resp)
          = resp.events.map (mkEventRecord resp)) := by
  constructor
  · intro ev
    simp only [processFigiEvents, List.mem_map, List.mem_filter]
    constructor
    · rintro ⟨row, ⟨hrow, hcond⟩, rfl⟩
      refine ⟨row, hrow, ?_, rfl⟩
      simpa using hcond
    · rintro ⟨row, hrow, hcond, rfl⟩
      refine ⟨row, ⟨hrow, ?_⟩, rfl⟩
      simpa using hcond
  · intro hfig
    rw [processFigiEvents]
    rw [List.filter_eq_self.mpr]
    intro row _
    simp [hfig]

/-- Claim C10 witness: a FIGI absent from the existing snapshot keeps all its
fetched events, including one older than the from-date. -/
theorem C10_witness :
    processFigiEvents 100 ["BBG000OTHER1"] "BBG000B9XRY4" (some sampleResponse)
      = sampleResponse.events.map (mkEventRecord sampleResponse) :=
  (C10_event_retention 100 ["BBG000OTHER1"] "BBG000B9XRY4" sampleResponse).2
    (by decide)
